import Mathlib

/-
Verification of the ustl output-stream core (mostream.h, sostream.cc).

The development shallowly embeds the two layers of the code:
  * `ustl.ostream`        - the binary output cursor of mostream.h (a borrowed
    byte view plus a write position),
  * `ustl.ostringstream`  - the dynamic text output stream of sostream.cc
    (owned resizable buffer, overflow protocol, printf-style rendering).

Machine memory is modelled as `List Nat` of byte values.  Definitions marked
"Modelled from the spec" embed collaborators whose bodies are not part of the
two source files (the growable byte buffer, ostream::write from mostream.cc,
the vsnprintf / snprintf primitives); they follow the specification text of
those interfaces.
-/

namespace ustl

/-- Overwrite the bytes of `store` at offset `pos` with `bytes`: the raw
memory copy performed by the stream write primitives. -/
def writeBytes (store : List Nat) (pos : Nat) (bytes : List Nat) : List Nat :=
  store.take pos ++ bytes ++ store.drop (pos + bytes.length)

/-- Resize a byte sequence to length `m`, keeping the existing prefix and
zero-filling any extension: the content-preserving resize of the buffer
collaborator. -/
def padTrunc (m : Nat) (l : List Nat) : List Nat :=
  (l ++ List.replicate (m - l.length) 0).take m

/-- Modelled from the spec: the process-wide default alignment constant
(platform-defined; 4 is used for concreteness, no theorem depends on the
exact value). -/
def c_DefaultAlignment : Nat := 4

/-- Modelled from the spec: `Align` (from the utility header, absent from
src) rounds a position up to the next multiple of `grain`. -/
def AlignUp (n grain : Nat) : Nat :=
  if grain = 0 then n else ((n + grain - 1) / grain) * grain

/-- The binary output cursor of mostream.h: a borrowed byte view plus a
write position (`m_Pos`). -/
structure ostream where
  data : List Nat
  pos : Nat
deriving DecidableEq, Repr

/-- ostream::size, inherited from the memlink view: the view capacity. -/
def ostream.size (s : ostream) : Nat := s.data.length

/-- ostream::remaining: `size() - pos()`. -/
def ostream.remaining (s : ostream) : Nat := s.size - s.pos

/-- ostream::seek: the debug assertion `newPos <= size()` is modelled as
failure (`none`); otherwise the position is set unconditionally. -/
def ostream.seek (s : ostream) (newPos : Nat) : Option ostream :=
  if newPos ≤ s.size then some { s with pos := newPos } else none

/-- ostream::skip: `seek (pos() + nBytes)`. -/
def ostream.skip (s : ostream) (nBytes : Nat) : Option ostream :=
  s.seek (s.pos + nBytes)

/-- ostream::aligned: `pos() % grain == 0`. -/
def ostream.aligned (s : ostream) (grain : Nat) : Bool :=
  s.pos % grain == 0

/-- ostream::align: `seek (Align (pos(), grain))`. -/
def ostream.align (s : ostream) (grain : Nat) : Option ostream :=
  s.seek (AlignUp s.pos grain)

/-- Modelled from the spec: ostream::write (its body lives in mostream.cc,
which is absent from src) copies exactly the given bytes at the position and
advances the position by their length; it fails fatally when their length
exceeds `remaining()`. -/
def ostream.write (s : ostream) (bytes : List Nat) : Option ostream :=
  if bytes.length ≤ s.remaining then
    some { data := writeBytes s.data s.pos bytes, pos := s.pos + bytes.length }
  else none

/-- ostream::iwrite: typed write of a value whose native in-memory
representation is `bytes` (with `bytes.length = sizeof(T)`); asserts
alignment on `min (sizeof(T)) c_DefaultAlignment` and sufficient room, then
stores the raw bit pattern at the position and skips `sizeof(T)`. -/
def ostream.iwrite (s : ostream) (bytes : List Nat) : Option ostream :=
  if s.aligned (min bytes.length c_DefaultAlignment) ∧ bytes.length ≤ s.remaining then
    some { data := writeBytes s.data s.pos bytes, pos := s.pos + bytes.length }
  else none

/-- An operation on the binary cursor, used to state the position invariant
over arbitrary operation sequences. -/
inductive BinOp where
  | seekOp (n : Nat)
  | skipOp (n : Nat)
  | alignOp (grain : Nat)
  | writeOp (bytes : List Nat)
deriving DecidableEq, Repr

/-- Run a single cursor operation. -/
def ostream.step (s : ostream) : BinOp → Option ostream
  | .seekOp n => s.seek n
  | .skipOp n => s.skip n
  | .alignOp g => s.align g
  | .writeOp bs => s.write bs

/-- Run a sequence of cursor operations, stopping at the first failure. -/
def ostream.run (s : ostream) : List BinOp → Option ostream
  | [] => some s
  | op :: rest =>
    match s.step op with
    | none => none
    | some s1 => s1.run rest

/-- Modelled from the spec: the native in-memory representation of a
four-byte signed int on a little-endian host. -/
def int32le (v : Int) : List Nat :=
  let u := (v % (2 ^ 32)).toNat
  [u % 256, u / 2 ^ 8 % 256, u / 2 ^ 16 % 256, u / 2 ^ 24 % 256]

/-- The payload of the exception thrown by ostringstream::overflow:
operation name, content description, position, requested size, remaining
size. -/
structure stream_bounds_exception where
  operation : String
  typeName : String
  offset : Nat
  expected : Nat
  remaining : Nat
deriving DecidableEq, Repr

/-- State of an ostringstream.  The backing storage is shared between the
owned buffer `m_Buffer` and the inherited ostream view, so it is held once
(`store`) together with the two bookkeeping sizes: `bufSize` is
m_Buffer.size() and `viewSize` is the inherited ostream view size.  `owned`
records whether m_Buffer owns its storage; when it is instead linked to an
external fixed region, `cap` is the size of that region (per the spec the
buffer is not growable in that mode). -/
structure ostringstream where
  store : List Nat
  bufSize : Nat
  viewSize : Nat
  pos : Nat
  owned : Bool
  cap : Nat
deriving DecidableEq, Repr

/-- Results of ostringstream operations: a thrown stream_bounds_exception
propagates together with the state of the object at the throw point (a C++
exception leaves the stream in its mutated state). -/
abbrev OResult (α : Type) := Except (stream_bounds_exception × ostringstream) α

/-- ostringstream::remaining, inherited: `viewSize - pos`. -/
def ostringstream.remaining (s : ostringstream) : Nat := s.viewSize - s.pos

/-- Constructor `ostringstream(void* p, size_t n)`: links both the view and
m_Buffer to the external region; position starts at 0. -/
def ostringstream.linked (bytes : List Nat) : ostringstream :=
  { store := bytes, bufSize := bytes.length, viewSize := bytes.length,
    pos := 0, owned := false, cap := bytes.length }

/-- Constructor `ostringstream(const string& v)`: copy-constructs m_Buffer
from v (owned) and links the view to it; the position field is initialized
to 0 by the ostream base constructor and is not changed afterwards. -/
def ostringstream.ofString (v : List Nat) : ostringstream :=
  { store := v, bufSize := v.length, viewSize := v.length,
    pos := 0, owned := true, cap := 0 }

/-- ostringstream::str: assigns s to m_Buffer (an owned copy), re-links the
view, and seeks to the end of the content. -/
def ostringstream.str (s : ostringstream) (v : List Nat) : ostringstream :=
  { store := v, bufSize := v.length, viewSize := v.length,
    pos := v.length, owned := true, cap := s.cap }

/-- Modelled from the spec: m_Buffer.resize.  For an owned buffer the
storage is reallocated to the new length, preserving the existing content
(reserve, called just before resize in overflow, always preserves content;
its boolean argument is the exactness flag).  For a buffer linked to an
external fixed region the size cannot exceed the region capacity. -/
def ostringstream.bufResize (s : ostringstream) (m : Nat) : ostringstream :=
  if s.owned then { s with store := padTrunc m s.store, bufSize := m }
  else { s with bufSize := min m s.cap }

/-- ostream::link (m_Buffer): re-links the inherited view to the buffer
storage; the view size becomes the buffer size and the position is
untouched. -/
def ostringstream.relink (s : ostringstream) : ostringstream :=
  { s with viewSize := s.bufSize }

/-- ostream::seek as called on the combined object (release semantics: the
bound assertion compiles out; the debug assertion is modelled at the
`ostream` layer). -/
def ostringstream.seek (s : ostringstream) (p : Nat) : ostringstream :=
  { s with pos := p }

/-- ostream::write as called on the combined object (Modelled from the spec,
release semantics): splice the bytes into the storage at the position and
advance; every caller below establishes `bytes.length ≤ remaining` first. -/
def ostringstream.oswrite (s : ostringstream) (bytes : List Nat) : ostringstream :=
  { s with store := writeBytes s.store s.pos bytes, pos := s.pos + bytes.length }

/-- ostringstream::overflow: if `n > remaining()`, reserve and resize
m_Buffer to `pos + n`, re-link the view to the possibly moved storage and
restore the saved position; if the request still exceeds `remaining()`,
throw a stream_bounds_exception; otherwise return the new `remaining()`. -/
def ostringstream.overflow (s : ostringstream) (n : Nat) : OResult (ostringstream × Nat) :=
  let s1 := if s.remaining < n then ((s.bufResize (s.pos + n)).relink).seek s.pos else s
  if s1.remaining < n then
    .error ({ operation := "write", typeName := "text", offset := s1.pos,
              expected := n, remaining := s1.remaining }, s1)
  else
    .ok (s1, s1.remaining)

/-- ostringstream::write (const void*, size_type): if the size exceeds
`remaining()` and overflow cannot provide enough space, return without
writing; otherwise delegate to ostream::write. -/
def ostringstream.write (s : ostringstream) (bytes : List Nat) : OResult ostringstream :=
  if s.remaining < bytes.length then
    match s.overflow bytes.length with
    | .error e => .error e
    | .ok (s1, r) => if r < bytes.length then .ok s1 else .ok (s1.oswrite bytes)
  else
    .ok (s.oswrite bytes)

/-- ostringstream::iwrite (uint8_t): writes a single byte if there is room
or overflow can make room. -/
def ostringstream.iwrite (s : ostringstream) (v : Nat) : OResult ostringstream :=
  if 1 ≤ s.remaining then .ok (s.oswrite [v])
  else
    match s.overflow 1 with
    | .error e => .error e
    | .ok (s1, r) => if 1 ≤ r then .ok (s1.oswrite [v]) else .ok s1

/-- Loop body of ostringstream::write_buffer, with an explicit fuel bound on
the number of loop entries (each executed iteration forwards at least one
byte, so `buf.length + 2` entries always suffice; fuel exhaustion returns
the current state and is never reached from `write_buffer`).  `written0` and
`btw0` are the loop variables at the head of the iteration, before the
`written += btw` update in the loop condition. -/
def writeBufAux (buf : List Nat) : Nat → Nat → Nat → ostringstream → OResult ostringstream
  | 0, _, _, s => .ok s
  | fuel + 1, written0, btw0, s =>
    let written := written0 + btw0
    if written < buf.length then
      if s.remaining ≠ 0 then
        let btw := min s.remaining (buf.length - written)
        match s.write ((buf.drop written).take btw) with
        | .error e => .error e
        | .ok s1 => writeBufAux buf fuel written btw s1
      else
        match s.overflow (buf.length - written) with
        | .error e => .error e
        | .ok (s1, r) =>
          if r ≠ 0 then
            let btw := min s1.remaining (buf.length - written)
            match s1.write ((buf.drop written).take btw) with
            | .error e => .error e
            | .ok s2 => writeBufAux buf fuel written btw s2
          else .ok s1
    else .ok s

/-- ostringstream::write_buffer: writes buf through the internal buffer,
growing it via overflow whenever `remaining()` hits zero. -/
def ostringstream.write_buffer (s : ostringstream) (buf : List Nat) : OResult ostringstream :=
  writeBufAux buf (buf.length + 2) 0 0 s

/-- ostringstream::flush: truncates m_Buffer at the current position. -/
def ostringstream.flush (s : ostringstream) : ostringstream :=
  s.bufResize s.pos

/-- Modelled from the spec: the bounded printf primitive (vsnprintf) applied
at offset `pos` of `store` with capacity `cap`.  The full rendering of the
format string and arguments is abstracted as the byte list `rendered`; the
primitive writes up to `cap - 1` of its bytes plus a terminating 0 and
returns the length it would have produced. -/
def vsnprintfAt (store : List Nat) (pos cap : Nat) (rendered : List Nat) :
    List Nat × Nat :=
  if cap = 0 then (store, rendered.length)
  else (writeBytes store pos (rendered.take (min rendered.length (cap - 1)) ++ [0]),
        rendered.length)

/-- ostringstream::vformat: renders into the remaining space; if the
required length `rv` satisfies `rv >= remaining()`, calls `overflow (rv + 1)`
and renders again; finally skips `min rv (remaining())` and returns `rv`.
The rendering of the format string and arguments is abstracted as
`rendered`. -/
def ostringstream.vformat (s : ostringstream) (rendered : List Nat) :
    OResult (ostringstream × Nat) :=
  let p1 := vsnprintfAt s.store s.pos s.remaining rendered
  let s1 : ostringstream := { s with store := p1.1 }
  let rv := p1.2
  if s1.remaining ≤ rv then
    match s1.overflow (rv + 1) with
    | .error e => .error e
    | .ok (s2, r2) =>
      if rv < r2 then
        let p3 := vsnprintfAt s2.store s2.pos s2.remaining rendered
        let s3 : ostringstream := { s2 with store := p3.1 }
        let rv2 := p3.2
        .ok ({ s3 with pos := s3.pos + min rv2 s3.remaining }, rv2)
      else
        .ok ({ s2 with pos := s2.pos + min rv s2.remaining }, rv)
  else
    .ok ({ s1 with pos := s1.pos + min rv s1.remaining }, rv)

/-- Modelled from the spec: the left-justification flag bit (the fmtflags
constants live in a header absent from src; only their being distinct bits
matters). -/
def fl_left : Nat := 1

/-- Modelled from the spec: the right-justification flag bit. -/
def fl_right : Nat := 2

/-- Modelled from the spec: the scientific-notation flag bit. -/
def fl_scientific : Nat := 4

/-- The formatting state consulted by fmtstring: flags bitset, numeric base,
precision and width (m_Flags, m_Base, m_Precision, m_Width). -/
structure FmtState where
  flags : Nat
  base : Nat
  precision : Nat
  width : Nat
deriving DecidableEq, Repr

/-- Fueled form of the encode_dec do-while loop; fuel `n + 1` always
suffices since the argument shrinks by a factor of ten each step. -/
def encode_decAux : Nat → Nat → List Char
  | 0, _ => []
  | fuel + 1, n =>
    Char.ofNat (48 + n % 10) :: (if n / 10 = 0 then [] else encode_decAux fuel (n / 10))

/-- ostringstream::encode_dec: emits the decimal digits of `n`, least
significant digit first, exactly as the do-while loop in the source does. -/
def encode_dec (n : Nat) : List Char := encode_decAux (n + 1) n

/-- Replace the last character written so far (the `fmt[-1] = c`
assignments in fmtstring). -/
def setLast (l : List Char) (c : Char) : List Char := l.dropLast ++ [c]

/-- ostringstream::fmtstring: builds the printf format string from the
formatting state and the conversion letters `typestr`. -/
def fmtstring (st : FmtState) (typestr : List Char) (bInteger : Bool) : List Char :=
  let raw :=
    ['%']
    ++ (if st.width ≠ 0 then encode_dec st.width else [])
    ++ (if st.flags &&& fl_left ≠ 0 then ['-'] else [])
    ++ (if bInteger then [] else '.' :: encode_dec st.precision)
    ++ typestr
  if bInteger then
    if st.base = 16 then setLast raw 'X'
    else if st.base = 8 then setLast raw 'o'
    else raw
  else
    if st.flags &&& fl_scientific ≠ 0 then setLast raw 'E' else raw

/-- Modelled from the spec: the bounded printf primitive (snprintf) into a
local buffer of capacity `cap`; returns the characters actually stored
(followed by the terminating 0) and the length it would have produced. -/
def snprintfModel (cap : Nat) (rendered : List Nat) : List Nat × Nat :=
  (rendered.take (min rendered.length (cap - 1)) ++ [0], rendered.length)

/-- ostringstream::sprintf_iwrite: renders a value (abstracted as its full
rendering `rendered`, produced via fmtstring and snprintf) into a 64-byte
local stack buffer, clamps the reported length to 63, and forwards that many
bytes of the local buffer through write_buffer. -/
def ostringstream.sprintf_iwrite (s : ostringstream) (rendered : List Nat) :
    OResult ostringstream :=
  let c_BufSize := 64
  let p := snprintfModel c_BufSize rendered
  let i := min p.2 (c_BufSize - 1)
  s.write_buffer (p.1.take i)

/-- Well-formedness of an ostringstream state: the position lies within the
view, the view is in sync with the buffer, and the storage length matches
the buffer size (owned) or the fixed region size (linked). -/
def ostringstream.WF (s : ostringstream) : Prop :=
  s.pos ≤ s.viewSize ∧ s.viewSize = s.bufSize ∧
    (s.owned = true → s.store.length = s.bufSize) ∧
    (s.owned = false → s.store.length = s.cap ∧ s.bufSize ≤ s.cap)

instance (s : ostringstream) : Decidable s.WF := by
  unfold ostringstream.WF
  infer_instance

/-! Helper lemmas about the raw memory primitives. -/

theorem writeBytes_nil (store : List Nat) (pos : Nat) :
    writeBytes store pos [] = store := by
  simp [writeBytes]

theorem writeBytes_length (store bytes : List Nat) (pos : Nat)
    (h : pos + bytes.length ≤ store.length) :
    (writeBytes store pos bytes).length = store.length := by
  simp [writeBytes]
  omega

theorem writeBytes_drop_take (store bytes : List Nat) (pos : Nat)
    (h : pos ≤ store.length) :
    ((writeBytes store pos bytes).drop pos).take bytes.length = bytes := by
  unfold writeBytes
  rw [List.append_assoc]
  rw [List.drop_left' (show (store.take pos).length = pos by
    simp [List.length_take]; omega)]
  exact List.take_left' rfl

theorem padTrunc_length (m : Nat) (l : List Nat) : (padTrunc m l).length = m := by
  simp [padTrunc]
  omega

theorem padTrunc_of_le (m : Nat) (l : List Nat) (h : l.length ≤ m) :
    padTrunc m l = l ++ List.replicate (m - l.length) 0 := by
  unfold padTrunc
  exact List.take_of_length_le (by simp; omega)

theorem padTrunc_of_ge (m : Nat) (l : List Nat) (h : m ≤ l.length) :
    padTrunc m l = l.take m := by
  unfold padTrunc
  exact List.take_append_of_le_length h

/-! Claim theorems. -/

/-- C4: fmtstring emits the digits of the width least significant first, so
at width 25 it produces the format string "%52d" where the claimed decimal
rendering of the width would give "%25d".  This evaluates the code at the
failing input. -/
theorem C4_fmtstring_reversed_width :
    fmtstring { flags := 0, base := 10, precision := 2, width := 25 } ['d'] true
      = ['%', '5', '2', 'd'] ∧
    (['%', '5', '2', 'd'] : List Char) ≠ ['%', '2', '5', 'd'] := by
  exact ⟨rfl, by decide⟩

/-- C5 counterexample: the constructor from an existing owned string buffer
leaves the position at 0, not at the end of the content ([7, 7] has length
2, yet the position after construction is 0, so the claimed equality of the
position with the content length decides to false). -/
theorem C5_counterexample :
    (ostringstream.ofString [7, 7]).pos = 0 ∧
    decide ((ostringstream.ofString [7, 7]).pos = ([7, 7] : List Nat).length) = false :=
  ⟨rfl, rfl⟩

/-- C5 amended: the constructor from an existing string initializes the
buffer with the content but leaves the position at 0 (overwrite mode);
it is the str() assignment that places the position at the end of the
content (append mode). -/
theorem C5_ctor_overwrites_str_appends (v : List Nat) (s : ostringstream) :
    (ostringstream.ofString v).store = v ∧
    (ostringstream.ofString v).pos = 0 ∧
    (s.str v).store = v ∧
    (s.str v).pos = v.length :=
  ⟨rfl, rfl, rfl, rfl⟩

/-- C6: under the alignment and room preconditions, ostream::iwrite stores
the raw native representation of the value at the current position,
advances the position by sizeof(T), and leaves the view capacity unchanged;
the bytes of the written region afterwards equal the representation. -/
theorem C6_iwrite_stores_raw (s : ostream) (bytes : List Nat)
    (hal : s.aligned (min bytes.length c_DefaultAlignment) = true)
    (hrem : bytes.length ≤ s.remaining) :
    s.iwrite bytes
      = some { data := writeBytes s.data s.pos bytes, pos := s.pos + bytes.length } ∧
    ∀ s1, s.iwrite bytes = some s1 →
      s1.pos = s.pos + bytes.length ∧
      (s1.data.drop s.pos).take bytes.length = bytes ∧
      s1.data.length = s.data.length := by
  have heq : s.iwrite bytes
      = some { data := writeBytes s.data s.pos bytes, pos := s.pos + bytes.length } := by
    unfold ostream.iwrite
    exact if_pos ⟨hal, hrem⟩
  refine ⟨heq, ?_⟩
  intro s1 h1
  rw [heq] at h1
  cases h1
  rcases List.eq_nil_or_concat bytes with hnil | _
  · subst hnil
    simp [writeBytes_nil]
  · have hlen : 0 < bytes.length := by
      cases bytes with
      | nil => simp_all
      | cons a t => simp
    have hsz : s.pos + bytes.length ≤ s.data.length := by
      have := hrem
      unfold ostream.remaining ostream.size at this
      omega
    refine ⟨rfl, ?_, ?_⟩
    · exact writeBytes_drop_take s.data bytes s.pos (by omega)
    · exact writeBytes_length s.data bytes s.pos hsz

/-- C6 witness: writing the native (little-endian) representation of the
four-byte signed int 1234 at position 0 of a fresh four-byte buffer leaves
the buffer bytes equal to that encoding and the position equal to 4. -/
theorem C6_witness :
    ((⟨[0, 0, 0, 0], 0⟩ : ostream).iwrite (int32le 1234)
      = some { data := writeBytes [0, 0, 0, 0] 0 (int32le 1234),
               pos := 0 + (int32le 1234).length }) ∧
    writeBytes [0, 0, 0, 0] 0 (int32le 1234) = [210, 4, 0, 0] ∧
    0 + (int32le 1234).length = 4 :=
  ⟨(C6_iwrite_stores_raw ⟨[0, 0, 0, 0], 0⟩ (int32le 1234) (by decide) (by decide)).1,
   by decide, by decide⟩

/-- C8: flush truncates the owned buffer to exactly the current position,
changes neither the position nor the view, and is idempotent. -/
theorem C8_flush_truncates_idempotent (s : ostringstream)
    (how : s.owned = true) (hlen : s.store.length = s.bufSize)
    (hpos : s.pos ≤ s.bufSize) :
    s.flush.store = s.store.take s.pos ∧
    s.flush.bufSize = s.pos ∧
    s.flush.pos = s.pos ∧
    s.flush.viewSize = s.viewSize ∧
    s.flush.flush = s.flush := by
  have h1 : s.flush = { s with store := s.store.take s.pos, bufSize := s.pos } := by
    unfold ostringstream.flush ostringstream.bufResize
    rw [if_pos how, padTrunc_of_ge s.pos s.store (by omega)]
  rw [h1]
  refine ⟨rfl, rfl, rfl, rfl, ?_⟩
  unfold ostringstream.flush ostringstream.bufResize
  rw [if_pos how]
  have h2 : padTrunc s.pos (s.store.take s.pos) = s.store.take s.pos := by
    rw [padTrunc_of_ge s.pos (s.store.take s.pos)
      (by simp [List.length_take]; omega)]
    rw [List.take_take]
    simp
  rw [h2]

/-- C8 witness: flushing an owned four-byte stream positioned at 2
truncates the buffer to two bytes and a second flush changes nothing. -/
theorem C8_witness :
    ((ostringstream.ofString [1, 2, 3, 4]).seek 2).flush.store = [1, 2] ∧
    ((ostringstream.ofString [1, 2, 3, 4]).seek 2).flush.bufSize = 2 ∧
    ((ostringstream.ofString [1, 2, 3, 4]).seek 2).flush.pos = 2 ∧
    ((ostringstream.ofString [1, 2, 3, 4]).seek 2).flush.flush
      = ((ostringstream.ofString [1, 2, 3, 4]).seek 2).flush := by
  have h := C8_flush_truncates_idempotent ((ostringstream.ofString [1, 2, 3, 4]).seek 2)
    (by decide) (by decide) (by decide)
  exact ⟨h.1, h.2.1, h.2.2.1, h.2.2.2.2⟩

/-- C9: if ostringstream::write raises the bounds exception, the operation
is atomic: the propagated stream state has the same position and the same
storage bytes as before the call (the overflow protocol restores the saved
position before throwing and the raw copy is never reached). -/
theorem C9_write_error_atomic (s : ostringstream) (bytes : List Nat)
    (e : stream_bounds_exception) (s1 : ostringstream)
    (h : s.write bytes = .error (e, s1)) :
    s1.pos = s.pos ∧ s1.store = s.store := by
  unfold ostringstream.write at h
  by_cases hlt : s.remaining < bytes.length
  · rw [if_pos hlt] at h
    rcases hov : s.overflow bytes.length with ⟨e2, s2⟩ | ⟨s2, r⟩
    · rw [hov] at h
      simp only [Except.error.injEq, Prod.mk.injEq] at h
      obtain ⟨-, hs1⟩ := h
      rw [← hs1]
      simp only [ostringstream.overflow] at hov
      rw [if_pos hlt] at hov
      by_cases herr :
          (((s.bufResize (s.pos + bytes.length)).relink).seek s.pos).remaining
            < bytes.length
      · rw [if_pos herr] at hov
        simp only [Except.error.injEq, Prod.mk.injEq] at hov
        obtain ⟨-, hs1⟩ := hov
        rw [← hs1]
        by_cases how : s.owned
        · exfalso
          unfold ostringstream.seek ostringstream.relink ostringstream.bufResize
            ostringstream.remaining at herr
          rw [if_pos how] at herr
          simp at herr
        · unfold ostringstream.seek ostringstream.relink ostringstream.bufResize
          rw [if_neg how]
          exact ⟨rfl, rfl⟩
      · rw [if_neg herr] at hov
        exact absurd hov (by simp)
    · rw [hov] at h
      simp at h
      split at h <;> simp at h
  · rw [if_neg hlt] at h
    exact absurd h (by simp)

/-- Helper: a successful seek lands within the capacity. -/
theorem ostream.seek_pos_le (s s1 : ostream) (n : Nat)
    (hs : s.seek n = some s1) : s1.pos ≤ s1.size := by
  unfold ostream.seek at hs
  split at hs
  next hn => cases hs; exact hn
  next => exact Option.noConfusion hs

/-- Helper: every successful cursor operation preserves the position bound. -/
theorem ostream.step_preserves (s s1 : ostream) (op : BinOp)
    (h : s.pos ≤ s.size) (hst : s.step op = some s1) : s1.pos ≤ s1.size := by
  cases op with
  | seekOp n => exact ostream.seek_pos_le s s1 n hst
  | skipOp n => exact ostream.seek_pos_le s s1 (s.pos + n) hst
  | alignOp g => exact ostream.seek_pos_le s s1 (AlignUp s.pos g) hst
  | writeOp bytes =>
    simp only [ostream.step] at hst
    unfold ostream.write at hst
    split at hst
    next hb =>
      cases hst
      have hsz : s.pos + bytes.length ≤ s.data.length := by
        unfold ostream.remaining ostream.size at hb
        unfold ostream.size at h
        omega
      show s.pos + bytes.length ≤ (writeBytes s.data s.pos bytes).length
      rw [writeBytes_length s.data bytes s.pos hsz]
      exact hsz
    next => exact Option.noConfusion hst

/-- C7: over every sequence of seek, skip, align and write operations the
invariant pos ≤ capacity is maintained; seek fails exactly when the target
exceeds the capacity and otherwise sets the position unconditionally
(forward or backward); skip n is seek (pos + n). -/
theorem C7_position_invariant :
    (∀ (ops : List BinOp) (s s1 : ostream),
        s.pos ≤ s.size → s.run ops = some s1 → s1.pos ≤ s1.size) ∧
    (∀ (s : ostream) (n : Nat), s.size < n → s.seek n = none) ∧
    (∀ (s : ostream) (n : Nat), n ≤ s.size → s.seek n = some { s with pos := n }) ∧
    (∀ (s : ostream) (n : Nat), s.skip n = s.seek (s.pos + n)) := by
  refine ⟨?_, ?_, ?_, ?_⟩
  · intro ops
    induction ops with
    | nil =>
      intro s s1 h hrun
      unfold ostream.run at hrun
      cases hrun
      exact h
    | cons op rest ih =>
      intro s s1 h hrun
      unfold ostream.run at hrun
      cases hst : s.step op with
      | none => rw [hst] at hrun; exact Option.noConfusion hrun
      | some s2 =>
        rw [hst] at hrun
        exact ih s2 s1 (ostream.step_preserves s s2 op h hst) hrun
  · intro s n hn
    unfold ostream.seek
    rw [if_neg (by omega)]
  · intro s n hn
    unfold ostream.seek
    rw [if_pos hn]
  · intro s n
    rfl

/-- C7 witness: a concrete sequence of seek, skip and write on a four-byte
cursor ends with position 4 within capacity 4. -/
theorem C7_witness :
    (⟨[0, 0, 0, 9], 4⟩ : ostream).pos ≤ (⟨[0, 0, 0, 9], 4⟩ : ostream).size :=
  C7_position_invariant.1 [.seekOp 2, .skipOp 1, .writeOp [9]]
    ⟨[0, 0, 0, 0], 0⟩ ⟨[0, 0, 0, 9], 4⟩ (by decide) (by rfl)

/-- Helper: on a full, externally linked (non-growable) stream, overflow
raises the bounds exception with the position restored and the state
completely unchanged. -/
theorem overflow_at_full (s : ostringstream) (n : Nat)
    (hview : s.viewSize = s.bufSize) (hfull : s.bufSize = s.cap)
    (hlink : s.owned = false) (hpos : s.pos = s.viewSize) (hn : 1 ≤ n) :
    s.overflow n = .error (⟨"write", "text", s.pos, n, 0⟩, s) := by
  obtain ⟨store, bufSize, viewSize, pos, owned, cap⟩ := s
  simp only at hview hfull hpos hlink
  subst hlink hview hfull hpos
  unfold ostringstream.overflow ostringstream.bufResize ostringstream.relink
    ostringstream.seek ostringstream.remaining
  simp
  omega

/-- C1 counterexample: on an externally linked three-byte stream, a raw
five-byte write does not silently write nothing: it propagates the same
bounds-exceeded failure the formatted paths use (operation "write",
description "text", position 0, requested 5, remaining 3). -/
theorem C1_counterexample :
    (ostringstream.linked [0, 0, 0]).write [1, 2, 3, 4, 5]
      = .error (⟨"write", "text", 0, 5, 3⟩, ostringstream.linked [0, 0, 0]) ∧
    ((ostringstream.linked [0, 0, 0]).write [1, 2, 3, 4, 5]).isOk = false :=
  ⟨rfl, rfl⟩

/-- C1 amended: when the buffer cannot grow enough (externally linked,
non-growable, no space remaining), every write path - the raw byte write,
write_buffer, and the single-character iwrite, exactly like the formatted
paths - signals the bounds-exceeded failure raised inside the overflow
protocol, carrying operation name, description, position, requested size
and remaining space; no path silently writes nothing. -/
theorem C1_raw_writes_raise (s : ostringstream) (bytes : List Nat)
    (hview : s.viewSize = s.bufSize) (hfull : s.bufSize = s.cap)
    (hlink : s.owned = false) (hpos : s.pos = s.viewSize) (hne : bytes ≠ []) :
    s.write bytes = .error (⟨"write", "text", s.pos, bytes.length, 0⟩, s) ∧
    s.write_buffer bytes = .error (⟨"write", "text", s.pos, bytes.length, 0⟩, s) ∧
    s.iwrite 65 = .error (⟨"write", "text", s.pos, 1, 0⟩, s) := by
  have hrem : s.remaining = 0 := by
    unfold ostringstream.remaining
    omega
  have hlen : 0 < bytes.length := List.length_pos.mpr hne
  refine ⟨?_, ?_, ?_⟩
  · unfold ostringstream.write
    rw [if_pos (by omega)]
    rw [overflow_at_full s bytes.length hview hfull hlink hpos (by omega)]
  · unfold ostringstream.write_buffer
    show writeBufAux bytes (bytes.length + 1 + 1) 0 0 s = _
    rw [writeBufAux]
    simp only [Nat.add_zero, Nat.zero_add]
    rw [if_pos hlen, if_neg (by omega : ¬ s.remaining ≠ 0), Nat.sub_zero]
    rw [overflow_at_full s bytes.length hview hfull hlink hpos (by omega)]
  · unfold ostringstream.iwrite
    rw [if_neg (by omega)]
    rw [overflow_at_full s 1 hview hfull hlink hpos (by omega)]

/-- C1 amended witness: on a zero-capacity externally linked stream, a
one-byte raw write, write_buffer and iwrite each raise the bounds failure. -/
theorem C1_witness :
    (ostringstream.linked []).write [9]
      = .error (⟨"write", "text", 0, 1, 0⟩, ostringstream.linked []) ∧
    (ostringstream.linked []).write_buffer [9]
      = .error (⟨"write", "text", 0, 1, 0⟩, ostringstream.linked []) ∧
    (ostringstream.linked []).iwrite 65
      = .error (⟨"write", "text", 0, 1, 0⟩, ostringstream.linked []) :=
  C1_raw_writes_raise (ostringstream.linked []) [9] rfl rfl rfl rfl (by simp)

/-- Helper: a write that fits in the remaining space goes straight to the
raw ostream copy. -/
theorem write_no_overflow (s : ostringstream) (bytes : List Nat)
    (h : bytes.length ≤ s.remaining) :
    s.write bytes = .ok (s.oswrite bytes) := by
  unfold ostringstream.write
  rw [if_neg (by omega)]

/-- Helper: on an owned stream whose request exceeds the remaining space,
overflow grows the buffer to pos + n (zero-filling the extension and
preserving the existing content), re-links the view, restores the position
and returns the new remaining space n. -/
theorem overflow_grow_owned (s : ostringstream) (n : Nat)
    (how : s.owned = true) (hlen : s.store.length = s.bufSize)
    (hview : s.viewSize = s.bufSize) (hlt : s.remaining < n) :
    s.overflow n
      = .ok ({ s with
                 store := s.store ++ List.replicate (s.pos + n - s.store.length) 0,
                 bufSize := s.pos + n, viewSize := s.pos + n }, n) := by
  have hrem : s.viewSize - s.pos < n := hlt
  have hle : s.store.length ≤ s.pos + n := by omega
  have h1 : ((s.bufResize (s.pos + n)).relink).seek s.pos
      = { s with
            store := s.store ++ List.replicate (s.pos + n - s.store.length) 0,
            bufSize := s.pos + n, viewSize := s.pos + n } := by
    unfold ostringstream.bufResize ostringstream.relink ostringstream.seek
    rw [if_pos how, padTrunc_of_le _ _ hle]
  simp only [ostringstream.overflow]
  rw [if_pos hlt, h1]
  have h2 : ({ s with
                 store := s.store ++ List.replicate (s.pos + n - s.store.length) 0,
                 bufSize := s.pos + n, viewSize := s.pos + n }
              : ostringstream).remaining = n := by
    simp only [ostringstream.remaining]
    omega
  rw [h2]
  rw [if_neg (by omega : ¬ n < n)]

/-- Helper: the write_buffer loop exits immediately once the written count
reaches the buffer size. -/
theorem wba_done (buf : List Nat) (fuel w b : Nat) (s : ostringstream)
    (h : buf.length ≤ w + b) : writeBufAux buf fuel w b s = .ok s := by
  cases fuel with
  | zero => rfl
  | succ m =>
    rw [writeBufAux]
    rw [if_neg (by omega)]

/-- Helper: when the loop head is reached with no space remaining on a
full owned stream, a single growth iteration writes all outstanding bytes
and the loop terminates. -/
theorem wba_grow_last (buf : List Nat) (fuel w b : Nat) (s : ostringstream)
    (how : s.owned = true) (hlen : s.store.length = s.bufSize)
    (hview : s.viewSize = s.bufSize) (hfull : s.pos = s.viewSize)
    (hw : w + b < buf.length) :
    writeBufAux buf (fuel + 1) w b s
      = .ok { s with
                store := s.store ++ buf.drop (w + b),
                bufSize := s.pos + (buf.length - (w + b)),
                viewSize := s.pos + (buf.length - (w + b)),
                pos := s.pos + (buf.length - (w + b)) } := by
  have hrem0 : s.remaining = 0 := by
    unfold ostringstream.remaining
    omega
  have hlt : s.remaining < buf.length - (w + b) := by omega
  have hov := overflow_grow_owned s (buf.length - (w + b)) how hlen hview hlt
  have hplen : s.pos = s.store.length := by omega
  rw [writeBufAux]
  rw [if_pos hw]
  rw [if_neg (by omega : ¬ s.remaining ≠ 0)]
  split
  next e heq =>
    rw [hov] at heq
    simp at heq
  next s1 r heq =>
    rw [hov] at heq
    simp only [Except.ok.injEq, Prod.mk.injEq] at heq
    obtain ⟨hs1, hr⟩ := heq
    subst hs1
    subst hr
    rw [if_pos (by omega : (buf.length - (w + b)) ≠ 0)]
    simp only [ostringstream.remaining, Nat.add_sub_cancel_left]
    rw [Nat.min_self]
    rw [List.take_of_length_le
      (show (buf.drop (w + b)).length ≤ buf.length - (w + b) by simp)]
    split
    next e heq =>
      rw [write_no_overflow] at heq
      · simp at heq
      · simp [ostringstream.remaining, Nat.add_sub_cancel_left]
    next s2 heq =>
      rw [write_no_overflow] at heq
      · simp only [Except.ok.injEq] at heq
        subst heq
        rw [wba_done buf fuel (w + b) (buf.length - (w + b)) _ (by omega)]
        refine congrArg Except.ok ?_
        simp only [ostringstream.oswrite, ostringstream.mk.injEq, List.length_drop,
          and_true, true_and]
        rw [show s.pos + (buf.length - (w + b)) - s.store.length
              = buf.length - (w + b) from by omega]
        unfold writeBytes
        rw [List.take_left' hplen.symm]
        have hdrop : (s.store ++ List.replicate (buf.length - (w + b)) 0).drop
            (s.pos + (buf.drop (w + b)).length) = [] := by
          apply List.drop_eq_nil_of_le
          simp only [List.length_append, List.length_replicate, List.length_drop]
          omega
        rw [hdrop]
        simp
      · simp [ostringstream.remaining, Nat.add_sub_cancel_left]

/-- Helper: writing a buffer larger than the owned capacity through
write_buffer grows the stream to pos + length, the storage afterwards
holding the old prefix up to pos followed by the whole buffer, with the
position at the end. -/
theorem write_buffer_grow (s : ostringstream) (buf : List Nat)
    (how : s.owned = true) (hlen : s.store.length = s.bufSize)
    (hview : s.viewSize = s.bufSize) (hpos : s.pos ≤ s.viewSize)
    (hC : s.bufSize < buf.length) :
    s.write_buffer buf
      = .ok { s with
                store := s.store.take s.pos ++ buf,
                bufSize := s.pos + buf.length,
                viewSize := s.pos + buf.length,
                pos := s.pos + buf.length } := by
  have hN : 0 < buf.length := by omega
  unfold ostringstream.write_buffer
  by_cases hR : s.remaining = 0
  · have hfull : s.pos = s.viewSize := by
      unfold ostringstream.remaining at hR
      omega
    have hplen : s.pos = s.store.length := by omega
    show writeBufAux buf (buf.length + 1 + 1) 0 0 s = _
    rw [wba_grow_last buf (buf.length + 1) 0 0 s how hlen hview hfull (by omega)]
    refine congrArg Except.ok ?_
    simp only [Nat.add_zero, Nat.zero_add, Nat.sub_zero, List.drop_zero,
      ostringstream.mk.injEq, and_true, true_and]
    rw [hplen, List.take_length]
  · have hR1 : 0 < s.remaining := Nat.pos_of_ne_zero hR
    have hRlt : s.remaining < buf.length := by
      unfold ostringstream.remaining at *
      omega
    have hposlen : s.pos + s.remaining = s.store.length := by
      unfold ostringstream.remaining at *
      omega
    show writeBufAux buf (buf.length + 1 + 1) 0 0 s = _
    rw [writeBufAux]
    rw [if_pos (show 0 + 0 < buf.length by omega)]
    rw [if_pos (show s.remaining ≠ 0 from hR)]
    unfold_let
    rw [show min s.remaining (buf.length - (0 + 0)) = s.remaining by omega]
    have hseglen : ((buf.drop (0 + 0)).take s.remaining).length = s.remaining := by
      simp only [List.length_take, List.length_drop]
      omega
    split
    next e heq =>
      rw [write_no_overflow _ _ (by omega : ((buf.drop (0 + 0)).take s.remaining).length ≤ s.remaining)] at heq
      simp at heq
    next s1 heq =>
      rw [write_no_overflow _ _ (by omega : ((buf.drop (0 + 0)).take s.remaining).length ≤ s.remaining)] at heq
      simp only [Except.ok.injEq] at heq
      subst heq
      have hsw : s.oswrite ((buf.drop (0 + 0)).take s.remaining)
          = { s with store := s.store.take s.pos ++ buf.take s.remaining,
                     pos := s.pos + s.remaining } := by
        simp only [ostringstream.oswrite, hseglen, ostringstream.mk.injEq,
          and_true, true_and]
        unfold writeBytes
        rw [hseglen]
        have hdrop : s.store.drop (s.pos + s.remaining) = [] :=
          List.drop_eq_nil_of_le (by omega)
        rw [hdrop]
        simp
      rw [hsw]
      have h1 : ({ s with store := s.store.take s.pos ++ buf.take s.remaining,
                          pos := s.pos + s.remaining } : ostringstream).store.length
          = ({ s with store := s.store.take s.pos ++ buf.take s.remaining,
                      pos := s.pos + s.remaining } : ostringstream).bufSize := by
        simp only [List.length_append, List.length_take]
        omega
      have h2 : ({ s with store := s.store.take s.pos ++ buf.take s.remaining,
                          pos := s.pos + s.remaining } : ostringstream).pos
          = ({ s with store := s.store.take s.pos ++ buf.take s.remaining,
                      pos := s.pos + s.remaining } : ostringstream).viewSize := by
        simp only []
        omega
      rw [wba_grow_last buf buf.length 0 s.remaining
        { s with store := s.store.take s.pos ++ buf.take s.remaining,
                 pos := s.pos + s.remaining } how h1 hview h2 (by omega)]
      refine congrArg Except.ok ?_
      simp only [ostringstream.mk.injEq, Nat.zero_add]
      refine ⟨?_, by omega, by omega, by omega, trivial, trivial⟩
      rw [List.append_assoc, List.take_append_drop]

/-- C2: on an owned stream, when the requested count n exceeds remaining(),
the overflow protocol resizes the owned buffer to position + n bytes
(preserving the existing content, zero-filling the extension), re-links the
view to the new storage, restores the saved position and returns the new
remaining() = n; consequently write_buffer of N bytes on a cursor whose
capacity C is smaller than N grows the buffer so that the written region
reproduces all N bytes unchanged and the capacity afterwards equals
position + N. -/
theorem C2_overflow_growth :
    (∀ (s : ostringstream) (n : Nat),
        s.owned = true → s.store.length = s.bufSize → s.viewSize = s.bufSize →
        s.remaining < n →
        s.overflow n
          = .ok ({ s with
                     store := s.store ++ List.replicate (s.pos + n - s.store.length) 0,
                     bufSize := s.pos + n, viewSize := s.pos + n }, n) ∧
        (s.store ++ List.replicate (s.pos + n - s.store.length) 0).take s.store.length
          = s.store) ∧
    (∀ (s : ostringstream) (buf : List Nat),
        s.owned = true → s.store.length = s.bufSize → s.viewSize = s.bufSize →
        s.pos ≤ s.viewSize → s.bufSize < buf.length →
        s.write_buffer buf
          = .ok { s with
                    store := s.store.take s.pos ++ buf,
                    bufSize := s.pos + buf.length,
                    viewSize := s.pos + buf.length,
                    pos := s.pos + buf.length } ∧
        ((s.store.take s.pos ++ buf).drop s.pos).take buf.length = buf) := by
  constructor
  · intro s n how hlen hview hlt
    refine ⟨overflow_grow_owned s n how hlen hview hlt, ?_⟩
    exact List.take_left s.store _
  · intro s buf how hlen hview hpos hC
    refine ⟨write_buffer_grow s buf how hlen hview hpos hC, ?_⟩
    rw [List.drop_left' (show (s.store.take s.pos).length = s.pos by
      simp only [List.length_take]
      omega)]
    exact List.take_length buf

/-- C2 witness: overflowing a two-byte owned stream by a request of five
bytes grows it to five bytes preserving the content, and write_buffer of
three bytes over a two-byte owned stream at position 0 grows the buffer and
reproduces all three bytes with the position at 3. -/
theorem C2_witness :
    ((ostringstream.ofString [1, 2]).overflow 5
      = .ok ({ store := [1, 2, 0, 0, 0], bufSize := 5, viewSize := 5,
               pos := 0, owned := true, cap := 0 }, 5)) ∧
    ((ostringstream.ofString [1, 2]).write_buffer [9, 9, 9]
      = .ok { store := [9, 9, 9], bufSize := 3, viewSize := 3,
              pos := 3, owned := true, cap := 0 }) :=
  ⟨(C2_overflow_growth.1 (ostringstream.ofString [1, 2]) 5 rfl rfl rfl
      (by decide)).1,
   (C2_overflow_growth.2 (ostringstream.ofString [1, 2]) [9, 9, 9] rfl rfl rfl
      (by decide) (by decide)).1⟩

/-- Helper: the bounded printf primitive always reports the full rendered
length. -/
theorem vsnprintf_len (st : List Nat) (p c : Nat) (r : List Nat) :
    (vsnprintfAt st p c r).2 = r.length := by
  unfold vsnprintfAt
  split <;> rfl

/-- Helper: the bounded printf primitive never changes the length of the
storage it writes into, provided the window lies inside it. -/
theorem vsnprintf_length (st : List Nat) (p c : Nat) (r : List Nat)
    (h : p + c ≤ st.length) :
    (vsnprintfAt st p c r).1.length = st.length := by
  unfold vsnprintfAt
  split
  · rfl
  next hc0 =>
    apply writeBytes_length
    simp only [List.length_append, List.length_take, List.length_cons,
      List.length_nil]
    omega

/-- Helper: when the window is strictly larger than the rendering, the
bounded printf primitive deposits the whole rendering at the position. -/
theorem vsnprintf_writes (st : List Nat) (p c : Nat) (r : List Nat)
    (hp : p ≤ st.length) (hc : r.length < c) :
    (((vsnprintfAt st p c r).1.drop p).take r.length) = r := by
  unfold vsnprintfAt
  rw [if_neg (by omega : ¬ c = 0)]
  rw [show min r.length (c - 1) = r.length by omega, List.take_length]
  have h2 := writeBytes_drop_take st (r ++ [0]) p hp
  have h3 : ((writeBytes st p (r ++ [0])).drop p).take r.length
      = (((writeBytes st p (r ++ [0])).drop p).take ((r ++ [0]).length)).take
          r.length := by
    rw [List.take_take]
    congr 1
    simp only [List.length_append, List.length_cons, List.length_nil]
    omega
  rw [h3, h2]
  rw [List.take_append_of_le_length (Nat.le_refl r.length), List.take_length]

/-- Helper: facts available whenever overflow returns successfully: the
position is restored, the returned value is the new remaining(), it covers
the request, and the position still lies inside the storage. -/
theorem overflow_ok_facts (s : ostringstream) (n : Nat) (s2 : ostringstream)
    (r : Nat) (hwf : s.WF) (h : s.overflow n = .ok (s2, r)) :
    s2.pos = s.pos ∧ r = s2.remaining ∧ n ≤ r ∧ s2.pos ≤ s2.store.length := by
  obtain ⟨hp, hv, hown, hlink⟩ := hwf
  have hsl : s.viewSize ≤ s.store.length := by
    cases ho : s.owned with
    | true =>
      have := hown ho
      omega
    | false =>
      have := hlink ho
      omega
  simp only [ostringstream.overflow] at h
  by_cases hlt : s.remaining < n
  · rw [if_pos hlt] at h
    by_cases herr : (((s.bufResize (s.pos + n)).relink).seek s.pos).remaining < n
    · rw [if_pos herr] at h
      exact absurd h (by simp)
    · rw [if_neg herr] at h
      simp only [Except.ok.injEq, Prod.mk.injEq] at h
      obtain ⟨hs2, hr⟩ := h
      subst hs2
      subst hr
      refine ⟨rfl, rfl, Nat.le_of_not_lt herr, ?_⟩
      show s.pos ≤ (s.bufResize (s.pos + n)).store.length
      unfold ostringstream.bufResize
      split
      · show s.pos ≤ (padTrunc (s.pos + n) s.store).length
        rw [padTrunc_length]
        omega
      · show s.pos ≤ s.store.length
        omega
  · simp only [if_neg hlt] at h
    simp only [Except.ok.injEq, Prod.mk.injEq] at h
    obtain ⟨hs2, hr⟩ := h
    subst hs2
    subst hr
    exact ⟨rfl, rfl, Nat.le_of_not_lt hlt, by omega⟩

/-- C3 counterexample: vformat on an externally linked two-byte stream with
a five-byte rendering does not truncate to the remaining two bytes with the
position advanced by 2; the failed growth attempt raises the
bounds-exceeded failure (requesting rendered length + 1 = 6) and the
position stays at 0. -/
theorem C3_counterexample :
    (ostringstream.linked [0, 0]).vformat [65, 66, 67, 68, 69]
      = .error (⟨"write", "text", 0, 6, 2⟩,
          ⟨[65, 0], 2, 2, 0, false, 2⟩) ∧
    ((ostringstream.linked [0, 0]).vformat [65, 66, 67, 68, 69]).isOk = false :=
  ⟨rfl, rfl⟩

/-- C3 amended: vformat renders into the remaining space; when the required
length rv meets or exceeds the remaining space it invokes the overflow
protocol requesting rv + 1 bytes and retries exactly once; whenever vformat
returns successfully the reported value is the full rendered length, the
position advances by exactly that length, and the whole rendering is in the
buffer (the min with the available space is degenerate because a successful
growth guarantees room; when growth cannot satisfy the request the
bounds-exceeded failure propagates instead of a truncated write). -/
theorem C3_vformat_ok (s : ostringstream) (rendered : List Nat)
    (s1 : ostringstream) (rv : Nat) (hwf : s.WF)
    (h : s.vformat rendered = .ok (s1, rv)) :
    rv = rendered.length ∧ s1.pos = s.pos + rendered.length ∧
    (s1.store.drop s.pos).take rendered.length = rendered := by
  have hwf2 := hwf
  obtain ⟨hp, hv, hown, hlink⟩ := hwf2
  have hsl : s.viewSize ≤ s.store.length := by
    cases ho : s.owned with
    | true =>
      have := hown ho
      omega
    | false =>
      have := hlink ho
      omega
  simp only [ostringstream.vformat, vsnprintf_len, ostringstream.remaining] at h
  by_cases hc : s.viewSize - s.pos ≤ rendered.length
  · rw [if_pos hc] at h
    have hwfp : ostringstream.WF
        { s with store := (vsnprintfAt s.store s.pos (s.viewSize - s.pos) rendered).1 } := by
      refine ⟨hp, hv, ?_, ?_⟩
      · intro ho
        rw [vsnprintf_length _ _ _ _ (by omega)]
        exact hown ho
      · intro ho
        rw [vsnprintf_length _ _ _ _ (by omega)]
        exact hlink ho
    split at h
    next e heq => exact absurd h (by simp)
    next s2 r2 heq =>
      have hfacts := overflow_ok_facts _ _ _ _ hwfp heq
      obtain ⟨hpos2, hr2, hn2, hps2⟩ := hfacts
      rw [if_pos (by omega : rendered.length < r2)] at h
      simp only [Except.ok.injEq, Prod.mk.injEq] at h
      obtain ⟨hs1, hrv⟩ := h
      subst hrv
      have hpos2' : s2.pos = s.pos := hpos2
      have hrem2 : s2.remaining = s2.viewSize - s2.pos := rfl
      have hlt2 : rendered.length < s2.viewSize - s2.pos := by
        rw [hrem2] at hr2
        omega
      refine ⟨rfl, ?_, ?_⟩
      · rw [← hs1]
        show s2.pos + min rendered.length (s2.viewSize - s2.pos)
          = s.pos + rendered.length
        rw [hpos2'] at hlt2 ⊢
        omega
      · rw [← hs1]
        show (((vsnprintfAt s2.store s2.pos (s2.viewSize - s2.pos) rendered).1.drop
            s.pos).take rendered.length) = rendered
        rw [← hpos2']
        exact vsnprintf_writes s2.store s2.pos _ rendered hps2 hlt2
  · rw [if_neg hc] at h
    simp only [Except.ok.injEq, Prod.mk.injEq] at h
    obtain ⟨hs1, hrv⟩ := h
    subst hrv
    refine ⟨rfl, ?_, ?_⟩
    · rw [← hs1]
      show s.pos + min rendered.length (s.viewSize - s.pos) = _
      omega
    · rw [← hs1]
      show (((vsnprintfAt s.store s.pos (s.viewSize - s.pos) rendered).1.drop
          s.pos).take rendered.length) = rendered
      exact vsnprintf_writes s.store s.pos _ rendered (by omega) (by omega)

/-- C3 amended witness: vformat of a two-byte rendering on an empty owned
stream grows the buffer, writes both bytes, reports length 2 and leaves the
position at 2. -/
theorem C3_witness :
    2 = ([65, 66] : List Nat).length ∧
    (⟨[65, 66, 0], 3, 3, 2, true, 0⟩ : ostringstream).pos
      = (ostringstream.ofString []).pos + ([65, 66] : List Nat).length ∧
    ((⟨[65, 66, 0], 3, 3, 2, true, 0⟩ : ostringstream).store.drop
        (ostringstream.ofString []).pos).take ([65, 66] : List Nat).length
      = [65, 66] :=
  C3_vformat_ok (ostringstream.ofString []) [65, 66]
    ⟨[65, 66, 0], 3, 3, 2, true, 0⟩ 2 (by decide) rfl

/-- C10: sprintf_iwrite renders into a 64-byte local stack buffer and
forwards exactly min(rendered length, 63) bytes of the rendering into the
stream, hence never more than 63 bytes per value; in particular a rendering
longer than 63 bytes on a fresh owned cursor is silently truncated to its
first 63 bytes. -/
theorem C10_sprintf_truncates (s : ostringstream) (rendered : List Nat) :
    s.sprintf_iwrite rendered
      = s.write_buffer (rendered.take (min rendered.length 63)) ∧
    (rendered.take (min rendered.length 63)).length ≤ 63 ∧
    (s.WF → s.owned = true → s.pos = 0 → s.bufSize < 63 → 63 < rendered.length →
      s.sprintf_iwrite rendered
        = .ok { s with store := rendered.take 63, bufSize := 63,
                       viewSize := 63, pos := 63 }) := by
  have hx : ((rendered.take (min rendered.length 63)) ++ [0]).take
      (min rendered.length 63) = rendered.take (min rendered.length 63) := by
    rw [List.take_append_of_le_length (by
      simp only [List.length_take]
      omega)]
    rw [List.take_take, Nat.min_self]
  have ha : s.sprintf_iwrite rendered
      = s.write_buffer (rendered.take (min rendered.length 63)) := by
    unfold ostringstream.sprintf_iwrite snprintfModel
    simp only [show (64 : Nat) - 1 = 63 from rfl]
    rw [hx]
  refine ⟨ha, by simp only [List.length_take]; omega, ?_⟩
  intro hwf how hp0 hC h63
  obtain ⟨hp, hv, hown, hlink⟩ := hwf
  rw [ha, show min rendered.length 63 = 63 by omega]
  rw [write_buffer_grow s (rendered.take 63) how (hown how) hv hp (by
    simp only [List.length_take]
    omega)]
  refine congrArg Except.ok ?_
  simp only [ostringstream.mk.injEq, List.length_take]
  refine ⟨?_, by omega, by omega, by omega, trivial, trivial⟩
  rw [hp0, List.take_zero, List.nil_append]

/-- C10 witness: rendering 70 bytes through sprintf_iwrite on an empty
owned stream forwards exactly 63 bytes. -/
theorem C10_witness :
    (ostringstream.ofString []).sprintf_iwrite (List.replicate 70 65)
      = .ok ⟨List.replicate 63 65, 63, 63, 63, true, 0⟩ :=
  (C10_sprintf_truncates (ostringstream.ofString []) (List.replicate 70 65)).2.2
    (by decide) rfl rfl (by decide) (by decide)

/-- C9 witness: a failing write on a full externally linked two-byte stream
propagates with the stream position and storage unchanged. -/
theorem C9_witness :
    (ostringstream.linked [5, 6]).write [1, 2, 3]
      = .error ({ operation := "write", typeName := "text", offset := 0,
                  expected := 3, remaining := 2 }, ostringstream.linked [5, 6]) ∧
    (ostringstream.linked [5, 6]).pos = (ostringstream.linked [5, 6]).pos ∧
    (ostringstream.linked [5, 6]).store = (ostringstream.linked [5, 6]).store :=
  ⟨by rfl,
   C9_write_error_atomic (ostringstream.linked [5, 6]) [1, 2, 3] _ _ (by rfl)⟩

end ustl
